import Mathlib

/-!
Verification of the lyrics-live overlay application core.

The development shallowly embeds the renderer state machine
(`src/renderer.ts`), the supervisor's line-buffering loop
(`src/main.ts`, `startPythonBackend`) and the interactive-mode toggle
(`src/main.ts`, the `CommandOrControl+Shift+L` handler) as executable
Lean definitions, and proves the spec's testable properties about them.
JavaScript numbers carrying lyric timestamps and playback positions are
modelled as rationals; strings are Lean strings.
-/

namespace LyricsLive

/-- A timestamped lyric line, `interface LyricLine { time, text }` in
`src/renderer.ts`. -/
structure LyricLine where
  time : ℚ
  text : String
deriving Repr, DecidableEq

/-- The renderer's `uiState` field: `'loading' | 'no-lyrics' | 'karaoke'`. -/
inductive UIState
  | loading
  | noLyrics
  | karaoke
deriving Repr, DecidableEq

/-- `VISIBLE_LINES = 5` in `src/renderer.ts`. -/
def VISIBLE_LINES : Nat := 5

/-- `MAX_LOG_LINES = 3` in `src/renderer.ts`. -/
def MAX_LOG_LINES : Nat := 3

/-- Characters removed by JavaScript `String.prototype.trim` (the ASCII
whitespace and line-terminator characters actually occurring in the
protocol). -/
def isJSWhitespace (c : Char) : Bool :=
  c = ' ' || c = '\t' || c = '\n' || c = '\r' || c = '\x0b' || c = '\x0c'

/-- JavaScript `s.trim()`: strip leading and trailing whitespace. -/
def jsTrim (s : String) : String :=
  String.mk (((s.toList.dropWhile isJSWhitespace).reverse.dropWhile
    isJSWhitespace).reverse)

/-- JavaScript `s.includes(sub)`: substring containment. -/
def jsIncludes (s sub : String) : Bool :=
  decide (sub.toList <:+: s.toList)

/-- JavaScript `s.startsWith(pre)`. -/
def jsStartsWith (s pre : String) : Bool :=
  decide (pre.toList <+: s.toList)

/-- The message-cleanup step of `addLog` in `src/renderer.ts`: prefix a
decorative icon depending on the message text. -/
def cleanLogMessage (message : String) : String :=
  if jsStartsWith message "Mic:" then "🎤 " ++ message
  else if jsIncludes message "Identifying" then "🔍 " ++ message
  else if jsIncludes message "Identified" then "✓ " ++ message
  else if jsIncludes message "Lyrics found" then "📝 " ++ message
  else if jsIncludes message "Fetching" then "⏳ " ++ message
  else message

/-- The HTML string pushed onto `logLines` by `addLog` in
`src/renderer.ts`. -/
def formatLogEntry (cleanMsg : String) (highlight : Bool) : String :=
  if highlight then
    "<span class=\"log-line highlight\">" ++ cleanMsg ++ "</span>"
  else
    "<span class=\"log-line\">" ++ cleanMsg ++ "</span>"

/-- `addLog` in `src/renderer.ts`: clean the message, push the formatted
entry, and `shift()` the oldest entry out when the length exceeds
`MAX_LOG_LINES`. -/
def addLog (logLines : List String) (message : String) (highlight : Bool) :
    List String :=
  let pushed := logLines ++ [formatLogEntry (cleanLogMessage message) highlight]
  if MAX_LOG_LINES < pushed.length then pushed.drop 1 else pushed

/-- The scanning loop of `updateKaraoke` in `src/renderer.ts`: walk the
lines in order starting at index `i` with current best `acc`; record `i`
while `position >= lines[i].time`, `break` at the first line in the
future. -/
def activeScanFrom (position : ℚ) : List LyricLine → Int → Int → Int
  | [], _, acc => acc
  | l :: rest, i, acc =>
      if l.time ≤ position then activeScanFrom position rest (i + 1) i
      else acc

/-- The active-line index computed by `updateKaraoke` in
`src/renderer.ts`: start at index `0` with `activeIndex = -1`. -/
def computeActiveIndex (lines : List LyricLine) (position : ℚ) : Int :=
  activeScanFrom position lines 0 (-1)

/-- The visible-window computation of `renderKaraoke` in
`src/renderer.ts` (lines 156-172): clamp a `VISIBLE_LINES`-sized window
around `activeIndex`, adjusting at both boundaries, with a dedicated
case for the initial `activeIndex < 0` state.  Returns
`(startIdx, endIdx)`. -/
def karaokeWindow (lines : List LyricLine) (activeIndex : Int) : Int × Int :=
  let n : Int := lines.length
  let halfWindow : Int := (VISIBLE_LINES : Int) / 2
  let startIdx := max 0 (activeIndex - halfWindow)
  let endIdx := min (n - 1) (activeIndex + halfWindow)
  let endIdx := if activeIndex < halfWindow then
    min (n - 1) ((VISIBLE_LINES : Int) - 1) else endIdx
  let startIdx := if activeIndex > n - halfWindow - 1 then
    max 0 (n - (VISIBLE_LINES : Int)) else startIdx
  if activeIndex < 0 then (0, min (n - 1) ((VISIBLE_LINES : Int) - 1))
  else (startIdx, endIdx)

/-- The renderer's mutable module state in `src/renderer.ts`. -/
structure RendererState where
  currentLyrics : List LyricLine
  currentTrack : String
  currentArtist : String
  lastActiveIndex : Int
  uiState : UIState
  logLines : List String
deriving Repr, DecidableEq

/-- The renderer state at script start. -/
def initialState : RendererState :=
  { currentLyrics := []
    currentTrack := ""
    currentArtist := ""
    lastActiveIndex := -1
    uiState := UIState.loading
    logLines := [] }

/-- A successfully parsed backend message, as discriminated by the
`lyrics-update` handler in `src/renderer.ts`: `parsed.type ===
'lyrics_load'`, `parsed.type === 'lrc_update'`, a truthy
`parsed.status`, or anything else (handled by no branch). -/
inductive Msg
  | lyricsLoad (track artist : String) (lines : List LyricLine)
  | lrcUpdate (position : ℚ)
  | status (text : String)
  | other
deriving Repr, DecidableEq

/-- An imperative render call issued by the handler: `renderKaraoke(i)`,
`showNoLyricsUI()` or `showLoadingUI()`. -/
inductive RenderEvent
  | karaokeRender (activeIndex : Int)
  | noLyricsUI
  | loadingUI
deriving Repr, DecidableEq

/-- `updateKaraoke` in `src/renderer.ts`: recompute the active index and
re-render only if it changed from `lastActiveIndex`. -/
def updateKaraoke (s : RendererState) (position : ℚ) :
    RendererState × List RenderEvent :=
  let activeIndex := computeActiveIndex s.currentLyrics position
  if activeIndex ≠ s.lastActiveIndex then
    ({ s with lastActiveIndex := activeIndex },
     [RenderEvent.karaokeRender activeIndex])
  else (s, [])

/-- The `lyrics-update` handler of `src/renderer.ts` applied to an
already-parsed message.  Returns the new state together with the render
calls issued. -/
def handleMessage (s : RendererState) (m : Msg) :
    RendererState × List RenderEvent :=
  match m with
  | Msg.lyricsLoad track artist lines =>
      let filtered := lines.filter (fun l => jsTrim l.text ≠ "")
      if filtered.length > 0 then
        ({ currentLyrics := filtered
           currentTrack := track
           currentArtist := artist
           lastActiveIndex := -1
           uiState := UIState.karaoke
           logLines := addLog s.logLines ("Now playing: " ++ track) true },
         [RenderEvent.karaokeRender (-1)])
      else
        ({ currentLyrics := filtered
           currentTrack := track
           currentArtist := artist
           lastActiveIndex := -1
           uiState := UIState.noLyrics
           logLines := addLog s.logLines
             ("No synced lyrics for: " ++ track) false },
         [RenderEvent.noLyricsUI])
  | Msg.lrcUpdate position =>
      if s.uiState = UIState.karaoke then updateKaraoke s position
      else (s, [])
  | Msg.status text =>
      if text = "" then (s, [])
      else
        let highlight := jsIncludes text "Identified" ||
          jsIncludes text "Lyrics found"
        let log := addLog s.logLines text highlight
        if jsIncludes text "No synced lyrics" then
          ({ s with logLines := log, uiState := UIState.noLyrics },
           [RenderEvent.noLyricsUI])
        else ({ s with logLines := log }, [])
  | Msg.other => (s, [])

/-- Fold a sequence of parsed messages through the handler, discarding
render events. -/
def processMessages (s : RendererState) (msgs : List Msg) : RendererState :=
  msgs.foldl (fun st m => (handleMessage st m).1) s

/-- The whole `lyrics-update` handler including the `try`/`catch` around
`JSON.parse`: a string that fails to parse is only logged to the console
and leaves the state untouched; a parsed message goes to the branch
dispatch.  The parse function is a parameter standing for
`JSON.parse` plus the field discrimination. -/
def processRawMessage (parse : String → Option Msg) (s : RendererState)
    (data : String) : RendererState × List RenderEvent :=
  match parse data with
  | none => (s, [])
  | some m => handleMessage s m

/-- Fold a sequence of `(message, highlight)` pairs through `addLog`,
starting from the renderer's initial empty `logLines`. -/
def processLogItems (items : List (String × Bool)) : List String :=
  items.foldl (fun acc it => addLog acc it.1 it.2) []

/-- A concrete karaoke-mode renderer state, used to instantiate
theorems. -/
def sampleKaraokeState : RendererState :=
  { currentLyrics := [⟨0, "la"⟩]
    currentTrack := "T"
    currentArtist := "A"
    lastActiveIndex := -1
    uiState := UIState.karaoke
    logLines := [] }

/-- JavaScript `s.split('\n')` on the character list: split into the
(always non-empty) list of fragments between newlines. -/
def splitNewlines : List Char → List (List Char)
  | [] => [[]]
  | c :: rest =>
      if c = '\n' then [] :: splitNewlines rest
      else
        match splitNewlines rest with
        | [] => [[c]]
        | f :: fs => (c :: f) :: fs

/-- One `data` callback of `startPythonBackend` in `src/main.ts`: append
the chunk to the buffer, split on newline, keep the final fragment as
the new buffer (`lines.pop() || ''`), and for every other fragment trim
it and forward it if non-empty.  Returns the new buffer and the
forwarded messages in order. -/
def processChunk (buffer chunk : String) : String × List String :=
  let fragments := splitNewlines (buffer ++ chunk).toList
  (String.mk (fragments.getLastD []),
   ((fragments.dropLast.map (fun f => jsTrim (String.mk f))).filter
     (fun t => t ≠ "")))

/-- Feed a sequence of chunks through the supervisor's buffering loop,
starting from buffer state `buffer`, accumulating all forwarded
messages in order. -/
def processChunks (buffer : String) (chunks : List String) :
    String × List String :=
  chunks.foldl
    (fun acc chunk =>
      let step := processChunk acc.1 chunk
      (step.1, acc.2 ++ step.2))
    (buffer, [])

/-- The concatenation of a sequence of stream chunks. -/
def concatChunks : List String → String
  | [] => ""
  | c :: cs => c ++ concatChunks cs

/-- The newline-terminated lines a full stream contains: every fragment
before the last one. -/
def completedLines (s : String) : List String :=
  ((splitNewlines s.toList).dropLast.map
    (fun f => jsTrim (String.mk f))).filter (fun t => t ≠ "")

/-- The trailing fragment of a stream after its last newline. -/
def trailingFragment (s : String) : String :=
  String.mk ((splitNewlines s.toList).getLastD [])

/-- The window's mouse-input configuration as set by
`setIgnoreMouseEvents` in `src/main.ts`: either accepting mouse input
(`setIgnoreMouseEvents(false)`) or passing events through while
forwarding them (`setIgnoreMouseEvents(true, { forward: true })`). -/
inductive MouseMode
  | accept
  | ignoreForwarding
deriving Repr, DecidableEq

/-- The main-process state relevant to the interactive-mode hotkey:
whether `mainWindow` exists, the `isInteractive` flag, the window's
mouse configuration, and the `mode-change` payloads sent so far. -/
structure MainState where
  windowPresent : Bool
  isInteractive : Bool
  mouseMode : MouseMode
  modeMessages : List Bool
deriving Repr, DecidableEq

/-- The `CommandOrControl+Shift+L` handler in `src/main.ts`: return
immediately when no window exists; otherwise flip `isInteractive`,
reconfigure mouse-event passthrough accordingly, and send a
`mode-change` notification. -/
def toggleInteractive (s : MainState) : MainState :=
  if !s.windowPresent then s
  else
    let interactive := !s.isInteractive
    if interactive then
      { s with
        isInteractive := interactive
        mouseMode := MouseMode.accept
        modeMessages := s.modeMessages ++ [true] }
    else
      { s with
        isInteractive := interactive
        mouseMode := MouseMode.ignoreForwarding
        modeMessages := s.modeMessages ++ [false] }

/-! ## Status-log lemmas -/

lemma addLog_length_le (log : List String) (m : String) (hl : Bool)
    (h : log.length ≤ MAX_LOG_LINES) :
    (addLog log m hl).length ≤ MAX_LOG_LINES := by
  simp only [addLog, MAX_LOG_LINES] at *
  split_ifs with hc <;>
    simp only [List.length_drop, List.length_append, List.length_cons,
      List.length_nil] at * <;>
    omega

lemma addLog_getLast? (log : List String) (m : String) (hl : Bool) :
    (addLog log m hl).getLast? =
      some (formatLogEntry (cleanLogMessage m) hl) := by
  simp only [addLog]
  split_ifs with hc
  · cases log with
    | nil => simp [MAX_LOG_LINES] at hc
    | cons a as => simp [List.getLast?_concat]
  · exact List.getLast?_concat _

/-- C7: the status log never exceeds `MAX_LOG_LINES = 3` entries, and
appending to a log at capacity evicts exactly the oldest entry,
keeping the remaining entries in order followed by the new one. -/
theorem log_ring_capacity_eviction (items : List (String × Bool)) :
    (processLogItems items).length ≤ MAX_LOG_LINES ∧
    ∀ log : List String, ∀ m : String, ∀ hl : Bool,
      log.length = MAX_LOG_LINES →
      addLog log m hl =
        log.drop 1 ++ [formatLogEntry (cleanLogMessage m) hl] := by
  constructor
  · have key : ∀ (its : List (String × Bool)) (acc : List String),
        acc.length ≤ MAX_LOG_LINES →
        (its.foldl (fun a it => addLog a it.1 it.2) acc).length ≤
          MAX_LOG_LINES := by
      intro its
      induction its with
      | nil => intro acc h; simpa using h
      | cons it rest ih =>
          intro acc h
          exact ih _ (addLog_length_le _ _ _ h)
    exact key items [] (by simp [MAX_LOG_LINES])
  · intro log m hl h
    have hl3 : log.length = 3 := by simpa [MAX_LOG_LINES] using h
    simp only [addLog]
    rw [if_pos (by simp [hl3, MAX_LOG_LINES])]
    rw [List.drop_append_of_le_length (by omega)]

/-- Witness for C7 at a concrete full log. -/
theorem log_ring_capacity_eviction_witness :
    addLog ["1", "2", "3"] "4" false =
      ["2", "3", formatLogEntry (cleanLogMessage "4") false] := by
  have h := (log_ring_capacity_eviction []).2 ["1", "2", "3"] "4" false rfl
  simpa using h

/-- C9: a message string that fails to parse is caught and leaves the
entire renderer state unchanged, issuing no render call. -/
theorem malformed_message_state_unchanged (parse : String → Option Msg)
    (s : RendererState) (data : String) (h : parse data = none) :
    processRawMessage parse s data = (s, []) := by
  simp [processRawMessage, h]

/-- Witness for C9 at a concrete non-JSON string. -/
theorem malformed_message_state_unchanged_witness :
    processRawMessage (fun _ => none) initialState "not json" =
      (initialState, []) :=
  malformed_message_state_unchanged (fun _ => none) initialState "not json" rfl

/-- C10: with the window present and the mouse configuration consistent
with the interactive flag, toggling interactive mode twice restores both
the flag and the window's mouse-event-passthrough setting. -/
theorem toggle_interactive_twice_identity (s : MainState)
    (hw : s.windowPresent = true)
    (hm : s.mouseMode = if s.isInteractive then MouseMode.accept
      else MouseMode.ignoreForwarding) :
    (toggleInteractive (toggleInteractive s)).isInteractive =
      s.isInteractive ∧
    (toggleInteractive (toggleInteractive s)).mouseMode = s.mouseMode := by
  rcases s with ⟨wp, ii, mm, msgs⟩
  simp only at hw hm
  subst hw
  cases ii <;> simp_all [toggleInteractive]

/-- Witness for C10 at the initial main-process state. -/
theorem toggle_interactive_twice_identity_witness :
    (toggleInteractive (toggleInteractive
      ⟨true, true, MouseMode.accept, []⟩)).isInteractive = true ∧
    (toggleInteractive (toggleInteractive
      ⟨true, true, MouseMode.accept, []⟩)).mouseMode = MouseMode.accept :=
  toggle_interactive_twice_identity ⟨true, true, MouseMode.accept, []⟩ rfl rfl

/-! ## Renderer state-machine lemmas -/

lemma handleMessage_karaoke_nonempty (s : RendererState) (m : Msg)
    (h : s.uiState = UIState.karaoke → s.currentLyrics ≠ []) :
    (handleMessage s m).1.uiState = UIState.karaoke →
    (handleMessage s m).1.currentLyrics ≠ [] := by
  cases m with
  | lyricsLoad track artist lines =>
      simp only [handleMessage]
      split_ifs with hf
      · intro _
        simpa using List.length_pos.mp hf
      · intro hk
        simp at hk
  | lrcUpdate p =>
      simp only [handleMessage]
      split_ifs with hk
      · simp only [updateKaraoke]
        split_ifs <;> simpa using h
      · simpa using h
  | status t =>
      simp only [handleMessage]
      split_ifs with h0 hn
      · simpa using h
      · intro hk
        simp at hk
      · simpa using h
  | other => simpa using h

/-- C4: from the initial state, no sequence of handled messages can reach
a state whose UI state is `karaoke` while the current lyric list is
empty. -/
theorem karaoke_state_nonempty_lyrics (msgs : List Msg)
    (h : (processMessages initialState msgs).uiState = UIState.karaoke) :
    (processMessages initialState msgs).currentLyrics ≠ [] := by
  have key : ∀ (ms : List Msg) (s : RendererState),
      (s.uiState = UIState.karaoke → s.currentLyrics ≠ []) →
      (processMessages s ms).uiState = UIState.karaoke →
      (processMessages s ms).currentLyrics ≠ [] := by
    intro ms
    induction ms with
    | nil => intro s hs; simpa [processMessages] using hs
    | cons m rest ih =>
        intro s hs
        have step := handleMessage_karaoke_nonempty s m hs
        simpa [processMessages, List.foldl_cons] using
          ih (handleMessage s m).1 step
  exact key msgs initialState (by intro hk; simp [initialState] at hk) h

/-- Witness for C4 at a load message that reaches `karaoke`. -/
theorem karaoke_state_nonempty_lyrics_witness :
    (processMessages initialState
      [Msg.lyricsLoad "T" "A" [⟨0, "x"⟩]]).currentLyrics ≠ [] :=
  karaoke_state_nonempty_lyrics [Msg.lyricsLoad "T" "A" [⟨0, "x"⟩]]
    (by simp [processMessages, handleMessage, jsTrim, isJSWhitespace,
      initialState])

/-- C5: a `lyrics_load` message transitions to `no-lyrics` exactly when
every line's text is whitespace-only (so the filtered list is empty),
appending a plain log entry, and otherwise to `karaoke`, appending a
highlighted log entry. -/
theorem lyrics_load_transition (s : RendererState) (track artist : String)
    (lines : List LyricLine) :
    ((lines.filter (fun l => jsTrim l.text ≠ "")) = [] ↔
      ∀ l ∈ lines, jsTrim l.text = "") ∧
    (handleMessage s (Msg.lyricsLoad track artist lines)).1.uiState =
      (if (lines.filter (fun l => jsTrim l.text ≠ "")) = [] then
        UIState.noLyrics else UIState.karaoke) ∧
    (handleMessage s (Msg.lyricsLoad track artist lines)).1.logLines.getLast?
      = some (if (lines.filter (fun l => jsTrim l.text ≠ "")) = [] then
          formatLogEntry
            (cleanLogMessage ("No synced lyrics for: " ++ track)) false
        else
          formatLogEntry
            (cleanLogMessage ("Now playing: " ++ track)) true) := by
  refine ⟨?_, ?_, ?_⟩
  · simp [List.filter_eq_nil_iff]
  · by_cases hf : (lines.filter (fun l => jsTrim l.text ≠ "")) = []
    · simp only [handleMessage]
      rw [if_neg (by rw [hf]; simp), if_pos hf]
    · simp only [handleMessage]
      rw [if_pos (List.length_pos.mpr hf), if_neg hf]
  · by_cases hf : (lines.filter (fun l => jsTrim l.text ≠ "")) = []
    · simp only [handleMessage]
      rw [if_neg (by rw [hf]; simp), if_pos hf]
      exact addLog_getLast? _ _ _
    · simp only [handleMessage]
      rw [if_pos (List.length_pos.mpr hf), if_neg hf]
      exact addLog_getLast? _ _ _

/-- C6: in karaoke mode a second `lrc_update` with the same position
changes nothing and issues no render call, and the first one issues a
render call exactly when the computed index differs from the previously
rendered one. -/
theorem lrc_update_idempotent (s : RendererState) (p : ℚ)
    (h : s.uiState = UIState.karaoke) :
    (handleMessage (handleMessage s (Msg.lrcUpdate p)).1
        (Msg.lrcUpdate p)).1 = (handleMessage s (Msg.lrcUpdate p)).1 ∧
    (handleMessage (handleMessage s (Msg.lrcUpdate p)).1
        (Msg.lrcUpdate p)).2 = [] ∧
    ((handleMessage s (Msg.lrcUpdate p)).2 = [] ↔
      computeActiveIndex s.currentLyrics p = s.lastActiveIndex) := by
  by_cases hc : computeActiveIndex s.currentLyrics p = s.lastActiveIndex <;>
    simp [handleMessage, updateKaraoke, h, hc]

/-- Witness for C6 at a concrete karaoke-mode state. -/
theorem lrc_update_idempotent_witness :
    (handleMessage (handleMessage sampleKaraokeState (Msg.lrcUpdate 1)).1
        (Msg.lrcUpdate 1)).1 =
      (handleMessage sampleKaraokeState (Msg.lrcUpdate 1)).1 ∧
    (handleMessage (handleMessage sampleKaraokeState (Msg.lrcUpdate 1)).1
        (Msg.lrcUpdate 1)).2 = [] ∧
    ((handleMessage sampleKaraokeState (Msg.lrcUpdate 1)).2 = [] ↔
      computeActiveIndex sampleKaraokeState.currentLyrics 1 =
        sampleKaraokeState.lastActiveIndex) :=
  lrc_update_idempotent sampleKaraokeState 1 rfl

/-- C3: for a non-empty lyric list, the karaoke window is a block of
consecutive indices of size exactly `min VISIBLE_LINES n`, lies within
the list bounds, and contains the active index whenever it is in
bounds. -/
theorem karaoke_window_spec (lines : List LyricLine) (a : Int)
    (h : lines ≠ []) :
    (karaokeWindow lines a).2 - (karaokeWindow lines a).1 + 1 =
      min ((VISIBLE_LINES : Int)) ((lines.length : Int)) ∧
    0 ≤ (karaokeWindow lines a).1 ∧
    (karaokeWindow lines a).2 ≤ (lines.length : Int) - 1 ∧
    (0 ≤ a → a < (lines.length : Int) →
      (karaokeWindow lines a).1 ≤ a ∧ a ≤ (karaokeWindow lines a).2) := by
  have hn : 1 ≤ (lines.length : Int) := by
    have h1 : 0 < lines.length := List.length_pos.mpr h
    exact_mod_cast h1
  simp only [karaokeWindow, VISIBLE_LINES]
  norm_num
  split_ifs <;> omega

/-- Witness for C3 at a one-line list with the initial active index. -/
theorem karaoke_window_spec_witness :
    (karaokeWindow [⟨0, "a"⟩] (-1)).2 - (karaokeWindow [⟨0, "a"⟩] (-1)).1
        + 1 = min ((VISIBLE_LINES : Int)) (([⟨0, "a"⟩] : List LyricLine).length : Int) ∧
    0 ≤ (karaokeWindow [⟨0, "a"⟩] (-1)).1 ∧
    (karaokeWindow [⟨0, "a"⟩] (-1)).2 ≤
      ((([⟨0, "a"⟩] : List LyricLine).length : Int)) - 1 ∧
    (0 ≤ (-1 : Int) → (-1 : Int) < (([⟨0, "a"⟩] : List LyricLine).length : Int) →
      (karaokeWindow [⟨0, "a"⟩] (-1)).1 ≤ -1 ∧
      -1 ≤ (karaokeWindow [⟨0, "a"⟩] (-1)).2) :=
  karaoke_window_spec [⟨0, "a"⟩] (-1) (by simp)

/-! ## Active-line index lemmas -/

lemma activeScanFrom_takeWhile (p : ℚ) (ls : List LyricLine) :
    ∀ i : Int, activeScanFrom p ls i (i - 1) =
      i + ((ls.takeWhile (fun l => l.time ≤ p)).length : Int) - 1 := by
  induction ls with
  | nil => intro i; simp [activeScanFrom]
  | cons l rest ih =>
      intro i
      simp only [activeScanFrom, List.takeWhile_cons]
      by_cases hl : l.time ≤ p
      · rw [if_pos hl]
        have h2 := ih (i + 1)
        rw [show i + 1 - 1 = i from by ring] at h2
        rw [h2]
        simp [hl]
        ring
      · rw [if_neg hl]
        simp [hl]

lemma computeActiveIndex_takeWhile (lines : List LyricLine) (p : ℚ) :
    computeActiveIndex lines p =
      ((lines.takeWhile (fun l => l.time ≤ p)).length : Int) - 1 := by
  have h := activeScanFrom_takeWhile p lines 0
  rw [show (0 : Int) - 1 = -1 from by ring] at h
  simpa [computeActiveIndex] using h

lemma takeWhile_length_le {α : Type} (f : α → Bool) :
    ∀ l : List α, (l.takeWhile f).length ≤ l.length := by
  intro l
  induction l with
  | nil => simp
  | cons a rest ih =>
      rw [List.takeWhile_cons]
      split_ifs <;> simp [Nat.succ_le_succ ih, Nat.le_succ_of_le ih]

lemma time_le_iff_lt_takeWhile (p : ℚ) (lines : List LyricLine) :
    List.Pairwise (fun a b => a.time ≤ b.time) lines →
    ∀ (i : Nat) (h : i < lines.length),
      ((lines.get ⟨i, h⟩).time ≤ p ↔
        i < (lines.takeWhile (fun l => l.time ≤ p)).length) := by
  induction lines with
  | nil => intro _ i h; simp at h
  | cons l rest ih =>
      intro hs i h
      rw [List.pairwise_cons] at hs
      obtain ⟨hfirst, hrest⟩ := hs
      by_cases hlp : l.time ≤ p
      · rw [List.takeWhile_cons, if_pos (by simpa using hlp)]
        cases i with
        | zero => simpa using hlp
        | succ j =>
            have h' : j < rest.length := by simpa using h
            have hj := ih hrest j h'
            simp only [List.get, List.length_cons]
            rw [hj]
            omega
      · rw [List.takeWhile_cons, if_neg (by simpa using hlp)]
        simp only [List.length_nil]
        cases i with
        | zero => simpa using hlp
        | succ j =>
            have h' : j < rest.length := by simpa using h
            have hle : l.time ≤ (rest.get ⟨j, h'⟩).time :=
              hfirst _ (List.get_mem rest j h')
            simp only [List.get]
            constructor
            · intro hc
              exact absurd (le_trans hle hc) hlp
            · intro hc
              exact absurd hc (by omega)

/-- C1: for a sorted lyric list, the index computed on an `lrc_update`
at position `p` is the greatest index whose time is at most `p`, and
`-1` when no such index exists: it lies in `[-1, n)` and an index `i`
satisfies `lines[i].time ≤ p` exactly when `i` is at most the computed
index. -/
theorem active_index_greatest (lines : List LyricLine) (p : ℚ)
    (hs : List.Pairwise (fun a b => a.time ≤ b.time) lines) :
    -1 ≤ computeActiveIndex lines p ∧
    computeActiveIndex lines p < (lines.length : Int) ∧
    ∀ (i : Nat) (h : i < lines.length),
      ((lines.get ⟨i, h⟩).time ≤ p ↔
        (i : Int) ≤ computeActiveIndex lines p) := by
  have hk := computeActiveIndex_takeWhile lines p
  have hlen := takeWhile_length_le (fun l => decide (l.time ≤ p)) lines
  refine ⟨by omega, by omega, ?_⟩
  intro i h
  rw [time_le_iff_lt_takeWhile p lines hs i h, hk]
  omega

/-- Witness for C1 at the spec's example: lines at times
`[0, 3.5, 7.0]` and position `5.0` give active index `1`. -/
theorem active_index_greatest_witness :
    computeActiveIndex [⟨0, "a"⟩, ⟨3.5, "b"⟩, ⟨7.0, "c"⟩] 5 = 1 ∧
    (-1 ≤ computeActiveIndex [⟨0, "a"⟩, ⟨3.5, "b"⟩, ⟨7.0, "c"⟩] 5 ∧
      computeActiveIndex [⟨0, "a"⟩, ⟨3.5, "b"⟩, ⟨7.0, "c"⟩] 5 <
        (([⟨0, "a"⟩, ⟨3.5, "b"⟩, ⟨7.0, "c"⟩] : List LyricLine).length : Int) ∧
      ∀ (i : Nat) (h : i < ([⟨0, "a"⟩, ⟨3.5, "b"⟩, ⟨7.0, "c"⟩] :
          List LyricLine).length),
        ((([⟨0, "a"⟩, ⟨3.5, "b"⟩, ⟨7.0, "c"⟩] :
            List LyricLine).get ⟨i, h⟩).time ≤ 5 ↔
          (i : Int) ≤ computeActiveIndex
            [⟨0, "a"⟩, ⟨3.5, "b"⟩, ⟨7.0, "c"⟩] 5)) :=
  ⟨by simp [computeActiveIndex, activeScanFrom]; norm_num,
   active_index_greatest [⟨0, "a"⟩, ⟨3.5, "b"⟩, ⟨7.0, "c"⟩] 5
     (by simp; norm_num)⟩

/-! ## Supervisor line-buffering lemmas -/

lemma splitNewlines_ne_nil (cs : List Char) : splitNewlines cs ≠ [] := by
  induction cs with
  | nil => simp [splitNewlines]
  | cons c rest ih =>
      simp only [splitNewlines]
      split_ifs with hc
      · simp
      · rcases hs : splitNewlines rest with _ | ⟨f, fs⟩ <;> simp [hs]

lemma no_newline_mem_splitNewlines (cs : List Char) :
    ∀ f ∈ splitNewlines cs, '\n' ∉ f := by
  induction cs with
  | nil =>
      intro f hf
      simp only [splitNewlines, List.mem_singleton] at hf
      simp [hf]
  | cons c rest ih =>
      intro f hf
      simp only [splitNewlines] at hf
      split_ifs at hf with hc
      · rcases List.mem_cons.mp hf with h | h
        · simp [h]
        · exact ih f h
      · rcases hs : splitNewlines rest with _ | ⟨g, gs⟩
        · rw [hs] at hf
          simp only [List.mem_singleton] at hf
          simp [hf, hc, Ne.symm hc]
        · rw [hs] at hf
          rcases List.mem_cons.mp hf with h | h
          · subst h
            have hg : '\n' ∉ g := ih g (by rw [hs]; exact List.mem_cons_self g gs)
            simp [hc, Ne.symm hc, hg]
          · exact ih f (by rw [hs]; exact List.mem_cons_of_mem g h)

lemma splitNewlines_no_newline (cs : List Char) (h : '\n' ∉ cs) :
    splitNewlines cs = [cs] := by
  induction cs with
  | nil => rfl
  | cons c rest ih =>
      simp only [List.mem_cons] at h
      push_neg at h
      obtain ⟨hc, hrest⟩ := h
      simp only [splitNewlines]
      rw [if_neg (Ne.symm hc), ih hrest]

lemma getLastD_append_of_ne_nil {α : Type} (l t : List α) (d : α)
    (h : t ≠ []) : (l ++ t).getLastD d = t.getLastD d := by
  rw [List.getLastD_eq_getLast?, List.getLastD_eq_getLast?,
    List.getLast?_append_of_ne_nil l h]

lemma splitNewlines_cons_newline (cs : List Char) :
    splitNewlines ('\n' :: cs) = [] :: splitNewlines cs := by
  simp [splitNewlines]

lemma splitNewlines_cons_ne (c : Char) (hc : ¬ c = '\n') (cs : List Char) :
    splitNewlines (c :: cs) =
      (c :: (splitNewlines cs).headD []) :: (splitNewlines cs).tail := by
  simp only [splitNewlines, if_neg hc]
  rcases hs : splitNewlines cs with _ | ⟨f, fs⟩
  · exact absurd hs (splitNewlines_ne_nil cs)
  · simp

lemma splitNewlines_append (xs ys : List Char) :
    splitNewlines (xs ++ ys) =
      (splitNewlines xs).dropLast ++
        splitNewlines ((splitNewlines xs).getLastD [] ++ ys) := by
  induction xs with
  | nil => simp [splitNewlines]
  | cons c xs ih =>
      by_cases hc : c = '\n'
      · subst hc
        have hne := splitNewlines_ne_nil xs
        rw [List.cons_append, splitNewlines_cons_newline,
          splitNewlines_cons_newline, ih,
          List.dropLast_cons_of_ne_nil hne, List.getLastD_cons,
          List.cons_append]
      · rw [List.cons_append, splitNewlines_cons_ne c hc (xs ++ ys),
          splitNewlines_cons_ne c hc xs, ih]
        rcases hs : splitNewlines xs with _ | ⟨f, fs⟩
        · exact absurd hs (splitNewlines_ne_nil xs)
        · rcases hfs : fs with _ | ⟨g, gs⟩
          · subst hfs
            simp only [List.dropLast_single, List.nil_append,
              List.getLastD_cons, List.getLastD_nil, List.headD_cons,
              List.tail_cons, List.dropLast_nil]
            rw [List.cons_append, splitNewlines_cons_ne c hc (f ++ ys)]
          · subst hfs
            simp only [List.headD_cons, List.tail_cons, List.getLastD_cons,
              List.dropLast_cons_of_ne_nil (List.cons_ne_nil g gs),
              List.cons_append]

lemma mk_getLastD_toList (fs : List (List Char)) :
    (String.mk (fs.getLastD [])).toList = fs.getLastD [] := rfl

lemma processChunk_step (b c1 c2 : String) :
    (processChunk (processChunk b c1).1 c2).1 =
      (processChunk b (c1 ++ c2)).1 ∧
    (processChunk b c1).2 ++ (processChunk (processChunk b c1).1 c2).2 =
      (processChunk b (c1 ++ c2)).2 := by
  have htl : (b ++ (c1 ++ c2)).toList = (b ++ c1).toList ++ c2.toList := by
    show (b ++ (c1 ++ c2)).data = (b ++ c1).data ++ c2.data
    simp [String.data_append]
  have htl2 :
      (String.mk ((splitNewlines (b ++ c1).toList).getLastD []) ++
        c2).toList =
      (splitNewlines (b ++ c1).toList).getLastD [] ++ c2.toList := by
    show (String.mk _ ++ c2).data = _ ++ c2.data
    simp [String.data_append]
  have hT := splitNewlines_ne_nil
    ((splitNewlines (b ++ c1).toList).getLastD [] ++ c2.toList)
  constructor
  · simp only [processChunk, htl, htl2]
    rw [splitNewlines_append ((b ++ c1).toList) c2.toList,
      getLastD_append_of_ne_nil _ _ _ hT]
  · simp only [processChunk, htl, htl2]
    rw [splitNewlines_append ((b ++ c1).toList) c2.toList,
      List.dropLast_append_of_ne_nil _ hT, List.map_append,
      List.filter_append]

lemma processChunks_foldl_acc (cs : List String) :
    ∀ (b : String) (out : List String),
      cs.foldl
        (fun acc chunk =>
          let step := processChunk acc.1 chunk
          (step.1, acc.2 ++ step.2)) (b, out) =
        ((processChunks b cs).1, out ++ (processChunks b cs).2) := by
  induction cs with
  | nil => intro b out; simp [processChunks]
  | cons c rest ih =>
      intro b out
      simp only [processChunks, List.foldl_cons]
      rw [ih, ih]
      simp

lemma trailingFragment_no_newline (s : String) :
    '\n' ∉ (trailingFragment s).toList := by
  simp only [trailingFragment]
  rw [mk_getLastD_toList]
  rcases hs : splitNewlines s.toList with _ | ⟨f, fs⟩
  · exact absurd hs (splitNewlines_ne_nil s.toList)
  · have hne : f :: fs ≠ [] := List.cons_ne_nil f fs
    rw [List.getLastD_eq_getLast?, List.getLast?_eq_getLast _ hne]
    exact no_newline_mem_splitNewlines s.toList _
      (by rw [hs]; exact List.getLast_mem hne)

lemma processChunk_empty (b : String) (h : '\n' ∉ b.toList) :
    processChunk b "" = (b, []) := by
  have hb : (b ++ "").toList = b.toList := by
    show (b ++ "").data = b.data
    simp [String.data_append]
  simp only [processChunk, hb, splitNewlines_no_newline b.toList h]
  rfl

lemma processChunks_concat (chunks : List String) :
    ∀ b : String, '\n' ∉ b.toList →
      processChunks b chunks = processChunk b (concatChunks chunks) := by
  induction chunks with
  | nil =>
      intro b hb
      rw [show concatChunks [] = "" from rfl, processChunk_empty b hb]
      rfl
  | cons c rest ih =>
      intro b hb
      have hcons : processChunks b (c :: rest) =
          ((processChunks (processChunk b c).1 rest).1,
            (processChunk b c).2 ++
              (processChunks (processChunk b c).1 rest).2) := by
        simp only [processChunks, List.foldl_cons]
        rw [processChunks_foldl_acc]
        simp [processChunks]
      have hfrag : '\n' ∉ (processChunk b c).1.toList :=
        trailingFragment_no_newline (b ++ c)
      rw [hcons, ih (processChunk b c).1 hfrag]
      have hstep := processChunk_step b c (concatChunks rest)
      rw [show concatChunks (c :: rest) = c ++ concatChunks rest from rfl]
      exact Prod.ext hstep.1 hstep.2

/-- C2: feeding any sequence of chunks through the supervisor's
buffering loop forwards exactly the trimmed, non-blank complete
newline-terminated lines of the concatenated stream, in order, and
retains the trailing fragment after the last newline as the buffer; in
particular the spec's two-chunk example forwards exactly the two
status messages. -/
theorem chunk_buffering (chunks : List String) :
    (processChunks "" chunks).2 = completedLines (concatChunks chunks) ∧
    (processChunks "" chunks).1 = trailingFragment (concatChunks chunks) ∧
    processChunks ""
        ["\x7b\"status\":\"A\"\x7d\n\x7b\"sta", "tus\":\"B\"\x7d\n"] =
      ("", ["\x7b\"status\":\"A\"\x7d", "\x7b\"status\":\"B\"\x7d"]) := by
  have h := processChunks_concat chunks "" (by simp)
  refine ⟨?_, ?_, by rfl⟩
  · rw [h]
    rfl
  · rw [h]
    rfl

/-- C8: a generic status message whose text contains "No synced lyrics"
forces the UI state to `no-lyrics` from any current state, leaving the
lyric list, track and artist untouched. -/
theorem no_synced_status_forces_no_lyrics (s : RendererState) (t : String)
    (h : jsIncludes t "No synced lyrics" = true) :
    (handleMessage s (Msg.status t)).1.uiState = UIState.noLyrics ∧
    (handleMessage s (Msg.status t)).1.currentLyrics = s.currentLyrics ∧
    (handleMessage s (Msg.status t)).1.currentTrack = s.currentTrack ∧
    (handleMessage s (Msg.status t)).1.currentArtist = s.currentArtist := by
  have ht : ¬ t = "" := by
    intro he
    subst he
    exact absurd h (by decide)
  simp [handleMessage, ht, h]

/-- Witness for C8 at the literal backend status text. -/
theorem no_synced_status_forces_no_lyrics_witness :
    (handleMessage initialState
      (Msg.status "No synced lyrics")).1.uiState = UIState.noLyrics ∧
    (handleMessage initialState
        (Msg.status "No synced lyrics")).1.currentLyrics =
      initialState.currentLyrics ∧
    (handleMessage initialState
        (Msg.status "No synced lyrics")).1.currentTrack =
      initialState.currentTrack ∧
    (handleMessage initialState
        (Msg.status "No synced lyrics")).1.currentArtist =
      initialState.currentArtist :=
  no_synced_status_forces_no_lyrics initialState "No synced lyrics" rfl

end LyricsLive
